import Mathlib

/-!
Shallow embedding of the csv_processor repository (src/csv_processor.py):
the filter/aggregation engine of a small CSV processing tool.  Rows are
association lists from column name to string cell value; numeric cells are
modelled as rational numbers (Python floats appear in the program only as
results of parsing finite decimal literals and of sum/div/min/max over them).
Fallible Python code (raise/except) is embedded in the Except monad.
-/

namespace CsvProc

/-- Errors raised by csv_processor.py, one constructor per distinct raise
site reachable from the embedded functions.  The Python code raises
ValueError with distinguishing messages; indexError is the IndexError a
subscript on an empty list raises, keyError the KeyError a missing dict
key raises. -/
inductive PyErr where
  | indexError : PyErr
  | keyError (key : String) : PyErr
  | unknownColumn (column : String) : PyErr
  | unsupportedOperator (token : String) : PyErr
  | unsupportedFunction (token : String) : PyErr
  | noNumericData (column : String) : PyErr
  | formatError (expected : String) : PyErr
  deriving DecidableEq, Repr

instance {ε α : Type} [DecidableEq ε] [DecidableEq α] : DecidableEq (Except ε α) := fun a b =>
  match a, b with
  | .error e, .error f => decidable_of_iff (e = f) (by simp)
  | .ok x, .ok y => decidable_of_iff (x = y) (by simp)
  | .error _, .ok _ => .isFalse (by simp)
  | .ok _, .error _ => .isFalse (by simp)

/-- The whitespace characters Python strips in str.strip() and float(). -/
def isPySpace (c : Char) : Bool :=
  c = ' ' || c = '\t' || c = '\n' || c = '\r' || c = '\x0b' || c = '\x0c'

/-- Python str.strip(): drop whitespace from both ends. -/
def pyStrip (cs : List Char) : List Char :=
  ((cs.dropWhile isPySpace).reverse.dropWhile isPySpace).reverse

def pyStripStr (s : String) : String := String.mk (pyStrip s.data)

/-- Python str.lower(), restricted to the ASCII case-folding the data of
this program uses (cell values and spec tokens). -/
def pyLower (s : String) : String := String.mk (s.data.map Char.toLower)

/-- Numeric value of a digit string, most significant first. -/
def digitsVal (ds : List Char) : Nat :=
  ds.foldl (fun a c => 10 * a + (c.toNat - 48)) 0

/-- The exact rational value sign * mantissa * 10 ^ eAdj of a decoded
decimal literal, built from integer arithmetic. -/
def decToRat (sign : Int) (mantissa : Nat) (eAdj : Int) : Rat :=
  match eAdj with
  | .ofNat n => mkRat (sign * mantissa * (10 : Int) ^ n) 1
  | .negSucc n => mkRat (sign * mantissa) ((10 : Nat) ^ (n + 1))

/-- Parse the optional exponent suffix of a float literal: either nothing
remains, or an e/E followed by an optional sign and at least one digit
consuming the rest of the input. -/
def parseExpPart : List Char → Option Int
  | [] => some 0
  | c :: rest =>
    if c = 'e' || c = 'E' then
      let signed : Int × List Char :=
        match rest with
        | '+' :: t => (1, t)
        | '-' :: t => (-1, t)
        | t => (1, t)
      if signed.2.isEmpty then none
      else if signed.2.all (fun d => d.isDigit) then some (signed.1 * digitsVal signed.2)
      else none
    else none

/-- Python float(string) on finite decimal literals, modelled exactly over
the rationals: optional surrounding whitespace, optional sign, digits with
an optional fraction part (at least one digit overall), optional exponent.
Returns none where Python raises ValueError.  (Python additionally accepts
inf/nan spellings and digit-group underscores; those have no exact
rational meaning rsp. do not occur in this program's data and are outside
the model.) -/
def parseFloat? (s : String) : Option Rat :=
  let cs := pyStrip s.data
  let signed : Int × List Char :=
    match cs with
    | '+' :: t => (1, t)
    | '-' :: t => (-1, t)
    | t => (1, t)
  let intDs := signed.2.takeWhile (fun d => d.isDigit)
  let rest1 := signed.2.dropWhile (fun d => d.isDigit)
  let fracSplit : List Char × List Char :=
    match rest1 with
    | '.' :: t => (t.takeWhile (fun d => d.isDigit), t.dropWhile (fun d => d.isDigit))
    | t => ([], t)
  if intDs.isEmpty && fracSplit.1.isEmpty then none
  else
    match parseExpPart fracSplit.2 with
    | none => none
    | some e =>
      some (decToRat signed.1 (digitsVal (intDs ++ fracSplit.1)) (e - fracSplit.1.length))

/-- EqualsOperator.apply: case-insensitive string equality, no trimming,
no numeric coercion (csv_processor.py line 26). -/
def equalsApply (value target : String) : Bool :=
  pyLower value == pyLower target

/-- GreaterOperator.apply: parse both operands as floats, false if either
parse fails, else strict numeric comparison (csv_processor.py line 33). -/
def greaterApply (value target : String) : Bool :=
  match parseFloat? value, parseFloat? target with
  | some x, some y => decide (x > y)
  | _, _ => false

/-- LessOperator.apply (csv_processor.py line 43). -/
def lessApply (value target : String) : Bool :=
  match parseFloat? value, parseFloat? target with
  | some x, some y => decide (x < y)
  | _, _ => false

/-- Keys of the CSVProcessor.operators dict (csv_processor.py line 90). -/
def operatorKeys : List String := ["eq", "gt", "lt"]

/-- Dispatch through the operators dict; only called after membership in
operatorKeys is checked, so the final branch is unreachable. -/
def applyOperator (op : String) (value target : String) : Bool :=
  if op = "eq" then equalsApply value target
  else if op = "gt" then greaterApply value target
  else if op = "lt" then lessApply value target
  else false

/-- AverageFunction.calculate (csv_processor.py line 62): 0.0 on the empty
list, else sum divided by count. -/
def avgCalculate (values : List Rat) : Rat :=
  if values.isEmpty then 0 else values.sum / (values.length : Rat)

/-- MinFunction.calculate (csv_processor.py line 71): 0.0 on the empty
list, else the builtin min reduction. -/
def minCalculate : List Rat → Rat
  | [] => 0
  | v :: vs => vs.foldl min v

/-- MaxFunction.calculate (csv_processor.py line 80). -/
def maxCalculate : List Rat → Rat
  | [] => 0
  | v :: vs => vs.foldl max v

/-- Keys of the CSVProcessor.aggregation_functions dict
(csv_processor.py line 96). -/
def functionKeys : List String := ["avg", "min", "max"]

/-- Dispatch through the aggregation_functions dict; only called after
membership in functionKeys is checked, so the final branch is
unreachable. -/
def calculate (fn : String) (values : List Rat) : Rat :=
  if fn = "avg" then avgCalculate values
  else if fn = "min" then minCalculate values
  else if fn = "max" then maxCalculate values
  else 0

/-- A row is a mapping from column name to string cell value; modelled as
an association list in header order (Python dict keys are unique and
insertion-ordered). -/
abbrev Row := List (String × String)

/-- Python: column in row (dict key membership). -/
def hasKey (row : Row) (k : String) : Bool :=
  row.any (fun p => p.1 == k)

/-- Python: row[column], as an Option (none where Python raises KeyError). -/
def rowGet (row : Row) (k : String) : Option String :=
  (row.find? (fun p => p.1 == k)).map (fun p => p.2)

/-- The row loop of CSVProcessor.filter_data (csv_processor.py lines
125-127): keep the rows the operator accepts, in order; a missing key
raises KeyError. -/
def filterLoop (op column target : String) : List Row → Except PyErr (List Row)
  | [] => .ok []
  | row :: rest =>
    match rowGet row column with
    | none => .error (.keyError column)
    | some v =>
      match filterLoop op column target rest with
      | .error e => .error e
      | .ok tail => .ok (if applyOperator op v target then row :: tail else tail)

/-- CSVProcessor.filter_data (csv_processor.py lines 113-129).  The Python
code subscripts data[0] before anything else, so an empty dataset raises
IndexError; then the column must be a key of the first row, then the
operator a key of the operators dict. -/
def filterData (data : List Row) (column op target : String) : Except PyErr (List Row) :=
  match data with
  | [] => .error .indexError
  | first :: _ =>
    if hasKey first column then
      if op ∈ operatorKeys then filterLoop op column target data
      else .error (.unsupportedOperator op)
    else .error (.unknownColumn column)

/-- The value-extraction loop of CSVProcessor.aggregate_data
(csv_processor.py lines 144-150): float(row[column]) for each row,
silently skipping rows whose value fails numeric parsing; a missing key
raises KeyError (KeyError is not caught by the except clause). -/
def extractNumeric (column : String) : List Row → Except PyErr (List Rat)
  | [] => .ok []
  | row :: rest =>
    match rowGet row column with
    | none => .error (.keyError column)
    | some v =>
      match extractNumeric column rest with
      | .error e => .error e
      | .ok tail =>
        .ok (match parseFloat? v with
          | some x => x :: tail
          | none => tail)

/-- CSVProcessor.aggregate_data (csv_processor.py lines 131-156): empty
dataset short-circuits to 0.0; then column membership in the first row,
then function membership in the registry, then extraction; zero surviving
numeric values raise NoNumericDataError, else the registry function is
applied. -/
def aggregateData (data : List Row) (column fn : String) : Except PyErr Rat :=
  match data with
  | [] => .ok 0
  | first :: _ =>
    if hasKey first column then
      if fn ∈ functionKeys then
        match extractNumeric column data with
        | .error e => .error e
        | .ok vals =>
          if vals.isEmpty then .error (.noNumericData column)
          else .ok (calculate fn vals)
      else .error (.unsupportedFunction fn)
    else .error (.unknownColumn column)

/-- Python str.split(sep) for a one-character separator: the list of
maximal separator-free segments; adjacent separators and separators at the
ends produce empty segments, and the empty input yields one empty
segment. -/
def pySplit (sep : Char) : List Char → List (List Char)
  | [] => [[]]
  | c :: rest =>
    match pySplit sep rest with
    | [] => [[]]
    | seg :: segs => if c = sep then [] :: seg :: segs else (c :: seg) :: segs

/-- The symbolic-to-canonical operator alias table of parse_filter
(csv_processor.py lines 200-209), in source order. -/
def operatorAliasMap : List (String × String) :=
  [("==", "eq"), ("eq", "eq"), (">", "gt"), ("gt", "gt"), (">=", "gt"),
   ("<", "lt"), ("lt", "lt"), ("<=", "lt")]

def lookupAlias (tok : String) : Option String :=
  (operatorAliasMap.find? (fun p => p.1 == tok)).map (fun p => p.2)

/-- The segments parse_filter splits its input into. -/
def filterParts (s : String) : List (List Char) := pySplit '=' s.data

/-- parse_filter (csv_processor.py lines 188-214): empty input is the
no-filter sentinel; the input must split on the equals sign into exactly
three segments; the middle segment is looked up in the alias table; column
and value are stripped, the operator replaced by its canonical token. -/
def parseFilter (s : String) : Except PyErr (Option (String × String × String)) :=
  if s = "" then .ok none
  else
    match pySplit '=' s.data with
    | [c, op, v] =>
      match lookupAlias (String.mk op) with
      | none => .error (.unsupportedOperator (String.mk op))
      | some canon => .ok (some (pyStripStr (String.mk c), canon, pyStripStr (String.mk v)))
    | _ => .error (.formatError ("column=operator=value"))

/-- parse_aggregation (csv_processor.py lines 217-227): empty input is the
no-aggregation sentinel; exactly two segments; column stripped, function
token stripped and lowercased, with no registry validation at parse
time. -/
def parseAggregation (s : String) : Except PyErr (Option (String × String)) :=
  if s = "" then .ok none
  else
    match pySplit '=' s.data with
    | [c, f] => .ok (some (pyStripStr (String.mk c), pyLower (pyStripStr (String.mk f))))
    | _ => .error (.formatError ("column=function"))

/-! ### Supporting lemmas -/

lemma rowGet_eq_some_of_hasKey (row : Row) (k : String) (h : hasKey row k = true) :
    ∃ v, rowGet row k = some v := by
  induction row with
  | nil => simp [hasKey] at h
  | cons p rest ih =>
    cases hpk : (p.1 == k) with
    | true => exact ⟨p.2, by simp [rowGet, List.find?_cons, hpk]⟩
    | false =>
      have h' : hasKey rest k = true := by simpa [hasKey, hpk] using h
      obtain ⟨v, hv⟩ := ih h'
      exact ⟨v, by simpa [rowGet, List.find?_cons, hpk] using hv⟩

lemma foldl_min_le_init (vs : List Rat) : ∀ a : Rat, vs.foldl min a ≤ a := by
  induction vs with
  | nil => intro a; exact le_refl a
  | cons c t ih => intro a; exact le_trans (ih (min a c)) (min_le_left a c)

lemma foldl_min_le_of_mem (vs : List Rat) : ∀ (a x : Rat), x ∈ vs → vs.foldl min a ≤ x := by
  induction vs with
  | nil => intro a x hx; simp at hx
  | cons c t ih =>
    intro a x hx
    rcases List.mem_cons.mp hx with rfl | hx'
    · exact le_trans (foldl_min_le_init t (min a x)) (min_le_right a x)
    · exact ih (min a c) x hx'

lemma foldl_min_mem (vs : List Rat) : ∀ a : Rat, vs.foldl min a = a ∨ vs.foldl min a ∈ vs := by
  induction vs with
  | nil => intro a; exact Or.inl rfl
  | cons c t ih =>
    intro a
    have hf : (c :: t).foldl min a = t.foldl min (min a c) := rfl
    rcases ih (min a c) with h | h
    · rcases min_choice a c with hm | hm
      · exact Or.inl (by rw [hf, h, hm])
      · exact Or.inr (by rw [hf, h, hm]; exact List.mem_cons_self c t)
    · exact Or.inr (by rw [hf]; exact List.mem_cons_of_mem c h)

lemma le_foldl_max_init (vs : List Rat) : ∀ a : Rat, a ≤ vs.foldl max a := by
  induction vs with
  | nil => intro a; exact le_refl a
  | cons c t ih => intro a; exact le_trans (le_max_left a c) (ih (max a c))

lemma le_foldl_max_of_mem (vs : List Rat) : ∀ (a x : Rat), x ∈ vs → x ≤ vs.foldl max a := by
  induction vs with
  | nil => intro a x hx; simp at hx
  | cons c t ih =>
    intro a x hx
    rcases List.mem_cons.mp hx with rfl | hx'
    · exact le_trans (le_max_right a x) (le_foldl_max_init t (max a x))
    · exact ih (max a c) x hx'

lemma foldl_max_mem (vs : List Rat) : ∀ a : Rat, vs.foldl max a = a ∨ vs.foldl max a ∈ vs := by
  induction vs with
  | nil => intro a; exact Or.inl rfl
  | cons c t ih =>
    intro a
    have hf : (c :: t).foldl max a = t.foldl max (max a c) := rfl
    rcases ih (max a c) with h | h
    · rcases max_choice a c with hm | hm
      · exact Or.inl (by rw [hf, h, hm])
      · exact Or.inr (by rw [hf, h, hm]; exact List.mem_cons_self c t)
    · exact Or.inr (by rw [hf]; exact List.mem_cons_of_mem c h)

/-- The sample dataset used by the repository's test suite. -/
def sampleRow1 : Row :=
  [("name", "iphone 15 pro"), ("brand", "apple"), ("price", "999"), ("rating", "4.9")]

def sampleRow2 : Row :=
  [("name", "galaxy s23 ultra"), ("brand", "samsung"), ("price", "1199"), ("rating", "4.8")]

def sampleRow3 : Row :=
  [("name", "redmi note 12"), ("brand", "xiaomi"), ("price", "199"), ("rating", "4.6")]

def sampleRow4 : Row :=
  [("name", "poco x5 pro"), ("brand", "xiaomi"), ("price", "299"), ("rating", "4.4")]

def sampleData : List Row := [sampleRow1, sampleRow2, sampleRow3, sampleRow4]

lemma filterLoop_eq_ok (op column target : String) :
    ∀ rows : List Row, (∀ r ∈ rows, hasKey r column = true) →
    filterLoop op column target rows =
      .ok (rows.filter fun r => applyOperator op ((rowGet r column).getD ("")) target) := by
  intro rows h
  induction rows with
  | nil => rfl
  | cons row rest ih =>
    obtain ⟨v, hv⟩ := rowGet_eq_some_of_hasKey row column (h row (List.mem_cons_self row rest))
    have hrest : ∀ r ∈ rest, hasKey r column = true :=
      fun r hr => h r (List.mem_cons_of_mem row hr)
    simp only [filterLoop, hv, ih hrest, List.filter_cons, Option.getD_some]

lemma extractNumeric_eq_ok (column : String) :
    ∀ rows : List Row, (∀ r ∈ rows, hasKey r column = true) →
    extractNumeric column rows =
      .ok (rows.filterMap fun r => (rowGet r column).bind parseFloat?) := by
  intro rows h
  induction rows with
  | nil => rfl
  | cons row rest ih =>
    obtain ⟨v, hv⟩ := rowGet_eq_some_of_hasKey row column (h row (List.mem_cons_self row rest))
    have hrest : ∀ r ∈ rest, hasKey r column = true :=
      fun r hr => h r (List.mem_cons_of_mem row hr)
    simp only [extractNumeric, hv, ih hrest, List.filterMap_cons, Option.some_bind]
    cases hp : parseFloat? v <;> simp [hp]

/-! ### Claim theorems -/

/-- C2: aggregating an empty dataset returns the 0.0 sentinel for every
column name and every function token, before any column-existence or
function-validity check can raise. -/
theorem aggregate_empty_returns_zero (column fn : String) :
    aggregateData [] column fn = .ok 0 := rfl

/-- C3: in the operator alias table, the greater-or-equal and
double-equals tokens map to the same canonical operators as the
greater-than and eq tokens, and less-or-equal to the same as less-than;
the canonical gt and lt operators are strict (false on numerically equal
operands), not or-equal comparisons. -/
theorem alias_table_ge_le_strict :
    lookupAlias (">=") = lookupAlias (">") ∧
    lookupAlias ("<=") = lookupAlias ("<") ∧
    lookupAlias ("==") = lookupAlias ("eq") ∧
    lookupAlias (">") = some ("gt") ∧
    lookupAlias ("<") = some ("lt") ∧
    lookupAlias ("eq") = some ("eq") ∧
    applyOperator ("gt") ("5") ("5") = false ∧
    applyOperator ("lt") ("5") ("5") = false ∧
    applyOperator ("gt") ("5.0") ("5") = false ∧
    applyOperator ("gt") ("6") ("5") = true ∧
    applyOperator ("lt") ("4") ("5") = true := by
  refine ⟨rfl, rfl, rfl, rfl, rfl, rfl, ?_, ?_, ?_, ?_, ?_⟩ <;> decide

/-- C7: the numeric comparison operators never raise: whenever either
operand fails the float parse both return false, and whenever both parse
they return the strict numeric comparison of the parsed values. -/
theorem numeric_operators_total (v t : String) :
    ((parseFloat? v = none ∨ parseFloat? t = none) →
      greaterApply v t = false ∧ lessApply v t = false) ∧
    (∀ x y : Rat, parseFloat? v = some x → parseFloat? t = some y →
      greaterApply v t = decide (x > y) ∧ lessApply v t = decide (x < y)) := by
  constructor
  · intro h
    cases hv : parseFloat? v <;> cases ht : parseFloat? t <;>
      simp_all [greaterApply, lessApply]
  · intro x y hx hy
    unfold greaterApply lessApply
    rw [hx, hy]
    exact ⟨rfl, rfl⟩

/-- Concrete check of numeric_operators_total at a failing and a
succeeding operand pair. -/
theorem numeric_operators_total_check :
    greaterApply ("abc") ("5") = false ∧ lessApply ("abc") ("5") = false ∧
    greaterApply ("10") ("5") = true ∧ lessApply ("10") ("5") = false := by
  have h1 := (numeric_operators_total ("abc") ("5")).1 (Or.inl (by decide))
  have h2 := (numeric_operators_total ("10") ("5")).2 10 5 (by decide) (by decide)
  exact ⟨h1.1, h1.2, by rw [h2.1]; decide, by rw [h2.2]; decide⟩

/-- C8: the equality operator compares the case-folded forms of its two
operands exactly as given (no trimming, no numeric coercion), and is
therefore symmetric. -/
theorem equals_casefold_and_symm (v t : String) :
    equalsApply v t = (pyLower v == pyLower t) ∧
    equalsApply v t = equalsApply t v := by
  refine ⟨rfl, ?_⟩
  unfold equalsApply
  rw [Bool.eq_iff_iff]
  simp only [beq_iff_eq]
  exact eq_comm

/-- C9: each registry function returns 0.0 on the empty list; on a
non-empty list, avg returns the sum divided by the count, min a member
that lower-bounds every member, max a member that upper-bounds every
member. -/
theorem registry_functions_spec (l : List Rat) (h : l ≠ []) :
    avgCalculate [] = 0 ∧ minCalculate [] = 0 ∧ maxCalculate [] = 0 ∧
    avgCalculate l = l.sum / (l.length : Rat) ∧
    (minCalculate l ∈ l ∧ ∀ x ∈ l, minCalculate l ≤ x) ∧
    (maxCalculate l ∈ l ∧ ∀ x ∈ l, x ≤ maxCalculate l) := by
  obtain ⟨v, vs, rfl⟩ := List.exists_cons_of_ne_nil h
  refine ⟨rfl, rfl, rfl, by simp [avgCalculate], ⟨?_, ?_⟩, ⟨?_, ?_⟩⟩
  · show vs.foldl min v ∈ v :: vs
    rcases foldl_min_mem vs v with hm | hm
    · rw [hm]; exact List.mem_cons_self v vs
    · exact List.mem_cons_of_mem v hm
  · intro x hx
    rcases List.mem_cons.mp hx with rfl | hx'
    · exact foldl_min_le_init vs x
    · exact foldl_min_le_of_mem vs v x hx'
  · show vs.foldl max v ∈ v :: vs
    rcases foldl_max_mem vs v with hm | hm
    · rw [hm]; exact List.mem_cons_self v vs
    · exact List.mem_cons_of_mem v hm
  · intro x hx
    rcases List.mem_cons.mp hx with rfl | hx'
    · exact le_foldl_max_init vs x
    · exact le_foldl_max_of_mem vs v x hx'

/-- C6: on a dataset whose rows carry the filter column, filter_data
returns exactly the rows the operator accepts, as a stable sub-sequence
of the input (an empty result is an ok value, not an error). -/
theorem filter_returns_stable_subsequence
    (data : List Row) (column op target : String) (r0 : Row) (rest : List Row)
    (hdata : data = r0 :: rest)
    (hcol : hasKey r0 column = true)
    (hschema : ∀ r ∈ data, hasKey r column = true)
    (hop : op ∈ operatorKeys) :
    filterData data column op target =
      .ok (data.filter fun r => applyOperator op ((rowGet r column).getD ("")) target) ∧
    (data.filter fun r => applyOperator op ((rowGet r column).getD ("")) target).Sublist data := by
  subst hdata
  constructor
  · have hstep : filterData (r0 :: rest) column op target =
        filterLoop op column target (r0 :: rest) := by
      simp [filterData, hcol, hop]
    rw [hstep]
    exact filterLoop_eq_ok op column target _ hschema
  · exact List.filter_sublist _

/-- Concrete check of filter_returns_stable_subsequence on the sample
dataset: the brand filter keeps exactly the two xiaomi rows, in order. -/
theorem filter_returns_stable_subsequence_check :
    filterData sampleData ("brand") ("eq") ("xiaomi") = .ok [sampleRow3, sampleRow4] := by
  have h := filter_returns_stable_subsequence sampleData ("brand") ("eq") ("xiaomi")
    sampleRow1 [sampleRow2, sampleRow3, sampleRow4] rfl (by decide) (by decide) (by decide)
  rw [h.1]
  decide

/-- C5: on a non-empty uniform-schema dataset, aggregate_data raises
UnknownColumnError exactly when the column is missing from the first row;
otherwise UnsupportedFunctionError exactly when the function token is
unrecognized; otherwise NoNumericDataError exactly when no cell of the
column parses numerically, and the ok result otherwise; and
parse_aggregation accepts an unknown function token without validating
it. -/
theorem aggregate_error_order
    (data : List Row) (column fn : String) (r0 : Row) (rest : List Row)
    (hdata : data = r0 :: rest)
    (hschema : hasKey r0 column = true → ∀ r ∈ data, hasKey r column = true) :
    (aggregateData data column fn = .error (.unknownColumn column) ↔
      hasKey r0 column = false) ∧
    (hasKey r0 column = true →
      (aggregateData data column fn = .error (.unsupportedFunction fn) ↔
        fn ∉ functionKeys)) ∧
    (hasKey r0 column = true → fn ∈ functionKeys →
      (aggregateData data column fn = .error (.noNumericData column) ↔
        (data.filterMap fun r => (rowGet r column).bind parseFloat?) = [])) ∧
    (hasKey r0 column = true → fn ∈ functionKeys →
      ∀ vs, (data.filterMap fun r => (rowGet r column).bind parseFloat?) = vs → vs ≠ [] →
        aggregateData data column fn = .ok (calculate fn vs)) ∧
    parseAggregation ("price=bogus") = .ok (some ("price", "bogus")) := by
  subst hdata
  cases hK : hasKey r0 column with
  | false =>
    have hagg : aggregateData (r0 :: rest) column fn = .error (.unknownColumn column) := by
      simp [aggregateData, hK]
    refine ⟨by simp [hagg], ?_, ?_, ?_, by decide⟩
    · intro hK'; exact absurd hK' (by simp)
    · intro hK'; exact absurd hK' (by simp)
    · intro hK'; exact absurd hK' (by simp)
  | true =>
    have hex := extractNumeric_eq_ok column (r0 :: rest) (hschema hK)
    by_cases hF : fn ∈ functionKeys
    · cases hvals : (r0 :: rest).filterMap fun r => (rowGet r column).bind parseFloat? with
      | nil =>
        have hagg : aggregateData (r0 :: rest) column fn = .error (.noNumericData column) := by
          simp [aggregateData, hK, hF, hex, hvals]
        refine ⟨by simp [hagg], fun _ => by simp [hagg, hF], fun _ _ => by simp [hagg],
          fun _ _ vs hvs hne => ?_, by decide⟩
        exact absurd hvs.symm hne
      | cons v0 vtail =>
        have hagg : aggregateData (r0 :: rest) column fn = .ok (calculate fn (v0 :: vtail)) := by
          simp [aggregateData, hK, hF, hex, hvals]
        refine ⟨by simp [hagg], fun _ => by simp [hagg, hF], fun _ _ => by simp [hagg],
          fun _ _ vs hvs hne => ?_, by decide⟩
        rw [hagg, hvs]
    · have hagg : aggregateData (r0 :: rest) column fn = .error (.unsupportedFunction fn) := by
        simp [aggregateData, hK, hF]
      refine ⟨by simp [hagg], fun _ => by simp [hagg, hF], fun _ hF' => absurd hF' hF,
        fun _ hF' => absurd hF' hF, by decide⟩

/-- Concrete check of aggregate_error_order on the sample dataset: the
all-text name column raises NoNumericDataError, and the price column
aggregates to its minimum. -/
theorem aggregate_error_order_check :
    aggregateData sampleData ("name") ("avg") = .error (.noNumericData ("name")) ∧
    aggregateData sampleData ("price") ("min") = .ok 199 := by
  have h1 := aggregate_error_order sampleData ("name") ("avg")
    sampleRow1 [sampleRow2, sampleRow3, sampleRow4] rfl (fun _ => by decide)
  have h2 := aggregate_error_order sampleData ("price") ("min")
    sampleRow1 [sampleRow2, sampleRow3, sampleRow4] rfl (fun _ => by decide)
  constructor
  · exact (h1.2.2.1 (by decide) (by decide)).mpr (by decide)
  · have := h2.2.2.2.1 (by decide) (by decide) [999, 1199, 199, 299] (by decide) (by decide)
    rw [this]
    decide

/-- C1 counterexample: filtering an empty dataset is not a vacuous
success; the subscript data[0] raises IndexError before the column check
is reached, so an error does surface. -/
theorem filter_empty_dataset_errors :
    filterData [] ("missing") ("eq") ("x") = .error .indexError := rfl

/-- C1 (amended): on a non-empty dataset whose first row lacks the
column, filter_data fails with UnknownColumnError naming the column; on
an empty dataset it fails with IndexError from the first-row subscript
(rather than skipping the check silently). -/
theorem filter_column_check_and_empty
    (data : List Row) (column op target : String) (r0 : Row) (rest : List Row) :
    (data = r0 :: rest → hasKey r0 column = false →
      filterData data column op target = .error (.unknownColumn column)) ∧
    filterData [] column op target = .error .indexError := by
  constructor
  · intro hdata hK
    subst hdata
    simp [filterData, hK]
  · rfl

/-- Concrete check of filter_column_check_and_empty: a missing column on
a one-row dataset raises UnknownColumnError. -/
theorem filter_column_check_and_empty_check :
    filterData [[("brand", "apple")]] ("missing") ("eq") ("x") =
      .error (.unknownColumn ("missing")) := by
  exact (filter_column_check_and_empty [[("brand", "apple")]] ("missing") ("eq") ("x")
    [("brand", "apple")] []).1 rfl (by decide)

/-- Concrete check of registry_functions_spec on a three-element list. -/
theorem registry_functions_spec_check :
    avgCalculate [(2 : Rat), 1, 3] = 2 ∧
    minCalculate [(2 : Rat), 1, 3] ∈ [(2 : Rat), 1, 3] ∧
    maxCalculate [(2 : Rat), 1, 3] ∈ [(2 : Rat), 1, 3] := by
  have h := registry_functions_spec [(2 : Rat), 1, 3] (by decide)
  refine ⟨?_, h.2.2.2.2.1.1, h.2.2.2.2.2.1⟩
  rw [h.2.2.2.1]
  norm_num [List.sum_cons, List.sum_nil]

lemma pySplit_ne_nil (sep : Char) (cs : List Char) : pySplit sep cs ≠ [] := by
  cases cs with
  | nil => simp [pySplit]
  | cons c rest =>
    unfold pySplit
    cases pySplit sep rest with
    | nil => simp
    | cons seg segs =>
      dsimp only
      split <;> simp

lemma sep_not_mem_pySplit (sep : Char) (cs : List Char) :
    ∀ seg ∈ pySplit sep cs, sep ∉ seg := by
  induction cs with
  | nil =>
    intro seg hseg
    simp [pySplit] at hseg
    simp [hseg]
  | cons c rest ih =>
    intro seg hseg
    unfold pySplit at hseg
    cases hr : pySplit sep rest with
    | nil => exact absurd hr (pySplit_ne_nil sep rest)
    | cons s0 ss =>
      rw [hr] at hseg
      dsimp only at hseg
      by_cases hc : c = sep
      · rw [if_pos hc] at hseg
        rcases List.mem_cons.mp hseg with rfl | h2
        · simp
        · exact ih seg (by rw [hr]; exact h2)
      · rw [if_neg hc] at hseg
        rcases List.mem_cons.mp hseg with rfl | h2
        · intro hmem
          rcases List.mem_cons.mp hmem with h | h
          · exact hc h.symm
          · exact ih s0 (by rw [hr]; exact List.mem_cons_self s0 ss) h
        · exact ih seg (by rw [hr]; exact List.mem_cons_of_mem s0 h2)

lemma pySplit_cons (sep c : Char) (xs : List Char) :
    pySplit sep (c :: xs) =
      match pySplit sep xs with
      | [] => [[]]
      | seg :: segs => if c = sep then [] :: seg :: segs else (c :: seg) :: segs := rfl

lemma cons_sep_pySplit (sep : Char) (xs : List Char) :
    pySplit sep (sep :: xs) = [] :: pySplit sep xs := by
  rw [pySplit_cons]
  cases h : pySplit sep xs with
  | nil => exact absurd h (pySplit_ne_nil sep xs)
  | cons s0 ss => simp

lemma cons_ne_pySplit (sep c : Char) (xs : List Char) (hc : c ≠ sep) :
    ∃ s0 ss, pySplit sep xs = s0 :: ss ∧ pySplit sep (c :: xs) = (c :: s0) :: ss := by
  cases h : pySplit sep xs with
  | nil => exact absurd h (pySplit_ne_nil sep xs)
  | cons s0 ss =>
    refine ⟨s0, ss, rfl, ?_⟩
    rw [pySplit_cons, h]
    dsimp only
    rw [if_neg hc]

lemma empty_seg_in_tail (sep : Char) :
    ∀ (l r : List Char), [] ∈ (pySplit sep (l ++ sep :: sep :: r)).tail := by
  intro l
  induction l with
  | nil =>
    intro r
    rw [List.nil_append, cons_sep_pySplit, cons_sep_pySplit]
    exact List.mem_cons_self [] (pySplit sep r)
  | cons c l' ih =>
    intro r
    by_cases hc : c = sep
    · subst hc
      rw [List.cons_append, cons_sep_pySplit]
      simp only [List.tail_cons]
      exact List.mem_of_mem_tail (ih r)
    · rw [List.cons_append]
      obtain ⟨s0, ss, h1, h2⟩ := cons_ne_pySplit sep c (l' ++ sep :: sep :: r) hc
      rw [h2]
      simp only [List.tail_cons]
      have h := ih r
      rw [h1] at h
      simpa using h

lemma lookupAlias_mem_operatorKeys (tok canon : String) (h : lookupAlias tok = some canon) :
    canon ∈ operatorKeys := by
  unfold lookupAlias at h
  cases hf : operatorAliasMap.find? (fun p => p.1 == tok) with
  | none => rw [hf] at h; simp at h
  | some p =>
    rw [hf] at h
    have h2 : p.2 = canon := by simpa using h
    have hp := List.mem_of_find?_eq_some hf
    have hall : ∀ q ∈ operatorAliasMap, q.2 ∈ operatorKeys := by decide
    rw [← h2]
    exact hall p hp

/-- C4: parse_filter is total and all-or-nothing: the empty string yields
the no-filter sentinel; a non-three-way split fails with FormatError; a
three-way split with an unrecognized middle token fails with
UnsupportedOperatorError naming it; a three-way split with a recognized
middle token succeeds, returning the stripped column, the canonical
operator and the stripped value; and every successful parse carries a
canonical recognized operator token. -/
theorem parse_filter_cases (s : String) :
    (s = "" → parseFilter s = .ok none) ∧
    (s ≠ "" → (filterParts s).length ≠ 3 →
      parseFilter s = .error (.formatError ("column=operator=value"))) ∧
    (∀ a b c, s ≠ "" → filterParts s = [a, b, c] → lookupAlias (String.mk b) = none →
      parseFilter s = .error (.unsupportedOperator (String.mk b))) ∧
    (∀ a b c canon, s ≠ "" → filterParts s = [a, b, c] →
      lookupAlias (String.mk b) = some canon →
      parseFilter s =
        .ok (some (pyStripStr (String.mk a), canon, pyStripStr (String.mk c)))) ∧
    (∀ colS opS valS, parseFilter s = .ok (some (colS, opS, valS)) → opS ∈ operatorKeys) := by
  refine ⟨?_, ?_, ?_, ?_, ?_⟩
  · intro h
    simp [parseFilter, h]
  · intro hne hlen
    unfold parseFilter
    rw [if_neg hne]
    unfold filterParts at hlen
    rcases hp : pySplit '=' s.data with _ | ⟨a, _ | ⟨b, _ | ⟨c, _ | ⟨d, tl⟩⟩⟩⟩
    · rfl
    · rfl
    · rfl
    · rw [hp] at hlen; simp at hlen
    · rfl
  · intro a b c hne hp hlook
    unfold parseFilter
    rw [if_neg hne]
    unfold filterParts at hp
    rw [hp]
    dsimp only
    rw [hlook]
  · intro a b c canon hne hp hlook
    unfold parseFilter
    rw [if_neg hne]
    unfold filterParts at hp
    rw [hp]
    dsimp only
    rw [hlook]
  · intro colS opS valS h
    by_cases hs : s = ""
    · simp [parseFilter, hs] at h
    · unfold parseFilter at h
      rw [if_neg hs] at h
      rcases hp : pySplit '=' s.data with _ | ⟨a, _ | ⟨b, _ | ⟨c, _ | ⟨d, tl⟩⟩⟩⟩ <;> rw [hp] at h
      · exact Except.noConfusion h
      · exact Except.noConfusion h
      · exact Except.noConfusion h
      · dsimp only at h
        cases hl : lookupAlias (String.mk b) with
        | none => rw [hl] at h; exact Except.noConfusion h
        | some canon =>
          rw [hl] at h
          dsimp only at h
          simp only [Except.ok.injEq, Option.some.injEq, Prod.mk.injEq] at h
          rw [← h.2.1]
          exact lookupAlias_mem_operatorKeys (String.mk b) canon hl
      · exact Except.noConfusion h

/-- Concrete check of parse_filter_cases: a three-way split with an
unrecognized middle token fails with UnsupportedOperatorError, and one
with a recognized middle token parses to the full triple. -/
theorem parse_filter_cases_check :
    parseFilter ("a=zz=b") = .error (.unsupportedOperator ("zz")) ∧
    parseFilter ("price=gt=500") = .ok (some ("price", "gt", "500")) := by
  constructor
  · exact (parse_filter_cases ("a=zz=b")).2.2.1 ("a".data) ("zz".data) ("b".data)
      (by decide) (by decide) (by decide)
  · have h := (parse_filter_cases ("price=gt=500")).2.2.2.1 ("price".data) ("gt".data)
      ("500".data) ("gt") (by decide) (by decide) (by decide)
    rw [h]
    decide

/-- C10: splitting on the equals sign never produces a segment containing
the separator, so the double-equals, greater-or-equal and less-or-equal
alias entries are unreachable from any input; the string price=>=500
splits into three segments with middle segment the greater-than sign; and
any input containing two adjacent equals signs yields an empty segment. -/
theorem split_segments_sep_free :
    (∀ (cs : List Char) (seg : List Char), seg ∈ pySplit '=' cs → '=' ∉ seg) ∧
    (∀ (s : String) (a b c : List Char), filterParts s = [a, b, c] →
      String.mk b ≠ "==" ∧ String.mk b ≠ ">=" ∧ String.mk b ≠ "<=") ∧
    parseFilter ("price=>=500") = .ok (some ("price", "gt", "500")) ∧
    (∀ (l r : List Char), [] ∈ pySplit '=' (l ++ '=' :: '=' :: r)) := by
  refine ⟨sep_not_mem_pySplit '=', ?_, by decide,
    fun l r => List.mem_of_mem_tail (empty_seg_in_tail '=' l r)⟩
  intro s a b c hp
  have hmem : b ∈ pySplit '=' s.data := by
    unfold filterParts at hp
    rw [hp]
    exact List.mem_cons_of_mem a (List.mem_cons_self b [c])
  have hb : '=' ∉ b := sep_not_mem_pySplit '=' s.data b hmem
  have key : ∀ t : String, String.mk b = t → b = t.data := fun t ht => by rw [← ht]
  refine ⟨?_, ?_, ?_⟩
  · intro h
    exact hb (by rw [key ("==") h]; decide)
  · intro h
    exact hb (by rw [key (">=") h]; decide)
  · intro h
    exact hb (by rw [key ("<=") h]; decide)

/-- Concrete check of split_segments_sep_free: the middle segment of
price=>=500 is separator-free, and a==b yields an empty segment. -/
theorem split_segments_sep_free_check :
    ('=' ∉ (['>'] : List Char)) ∧ ([] ∈ pySplit '=' (['a', '=', '=', 'b'])) := by
  have h1 := split_segments_sep_free.1 ("price=>=500".data) ['>'] (by decide)
  have h3 := split_segments_sep_free.2.2.2 ['a'] ['b']
  exact ⟨h1, by simpa using h3⟩

end CsvProc
